import Mathlib

/-!
Verification of the image text-region detection and enhancement pipeline of the
TranscriptionTool repository.

The development shallowly embeds the pixel-level algorithms of the repository:
the `SmartTextDetector` class (edge / color / stroke scanners, region merging,
pipeline orchestration, adaptive threshold) and the `ImagePreprocessor` class
(histogram construction, Otsu threshold, binarization, `analyzeImage`).

Modelling conventions:
* JavaScript numbers are modelled by exact rationals; machine pixel channels
  are `ℕ` values in `[0,255]`.  To keep every definition evaluable by the
  kernel we use the wrapper type `JQ` of `ℚ` below, whose field operations are
  implemented by the computable `mkRat` / `Rat.divInt` and provably coincide
  with those of `ℚ`.
* An `ImageData` buffer (flat RGBA array of length `4·width·height`) is
  modelled as a function from the pixel index `k = y·width + x` to an RGBA
  quadruple; the source's bounds guards `idx < data.length` become
  `k < width · height`.
* `Math.round` (round half toward positive infinity) is `jsRound`.
* Comparisons of the form `Math.sqrt e < c` in the source are modelled as the
  equivalent `e < c²` (both sides are nonnegative); where a rounded square
  root is stored into a `Uint8ClampedArray` (Sobel magnitudes) we model the
  rounding explicitly with `roundHalfEvenSqrt` (clamped arrays round to
  nearest, ties to even).
* JavaScript's `Array.prototype.sort` is stable; loops that sort by count are
  modelled with the stable insertion sort `stableSortDesc`.
-/

/-- Exact rational numbers with kernel-computable arithmetic, used to model
JavaScript numbers.  `Rat`'s own arithmetic operations are irreducible, so we
wrap `ℚ` and implement the operations through `mkRat` / `Rat.divInt`, which
evaluate; the `LinearOrderedField` structure is transferred along `JQ.val`. -/
structure JQ where
  val : ℚ
deriving DecidableEq

namespace JQ

theorem val_injective : Function.Injective val := fun a b h => by
  cases a; cases b; simpa using h

instance : Zero JQ := ⟨⟨0⟩⟩
instance : One JQ := ⟨⟨1⟩⟩
instance : NatCast JQ := ⟨fun n => ⟨n⟩⟩
instance : IntCast JQ := ⟨fun n => ⟨n⟩⟩
instance : NNRatCast JQ := ⟨fun q => ⟨q⟩⟩
instance : RatCast JQ := ⟨fun q => ⟨q⟩⟩

instance : Add JQ :=
  ⟨fun a b => ⟨mkRat (a.val.num * b.val.den + b.val.num * a.val.den) (a.val.den * b.val.den)⟩⟩

instance : Mul JQ := ⟨fun a b => ⟨mkRat (a.val.num * b.val.num) (a.val.den * b.val.den)⟩⟩

instance : Neg JQ := ⟨fun a => ⟨mkRat (-a.val.num) a.val.den⟩⟩

instance : Sub JQ := ⟨fun a b => a + -b⟩

instance : Inv JQ := ⟨fun a => ⟨Rat.divInt a.val.den a.val.num⟩⟩

instance : Div JQ := ⟨fun a b => a * b⁻¹⟩

instance : SMul ℕ JQ := ⟨nsmulRec⟩
instance : SMul ℤ JQ := ⟨zsmulRec⟩
instance : SMul ℚ≥0 JQ := ⟨fun q a => ⟨(q : ℚ)⟩ * a⟩
instance : SMul ℚ JQ := ⟨fun q a => ⟨q⟩ * a⟩
instance : Pow JQ ℕ := ⟨fun a n => npowRec n a⟩
instance : Pow JQ ℤ := ⟨fun a n => zpowRec npowRec n a⟩
instance : Max JQ := ⟨fun a b => if a.val ≤ b.val then b else a⟩
instance : Min JQ := ⟨fun a b => if a.val ≤ b.val then a else b⟩

theorem val_zero : (0 : JQ).val = 0 := rfl
theorem val_one : (1 : JQ).val = 1 := rfl
theorem val_natCast (n : ℕ) : (n : JQ).val = n := rfl
theorem val_intCast (n : ℤ) : ((n : ℤ) : JQ).val = n := rfl

theorem val_add (a b : JQ) : (a + b).val = a.val + b.val := by
  show (mkRat (a.val.num * b.val.den + b.val.num * a.val.den)
      (a.val.den * b.val.den) : ℚ) = _
  rw [Rat.mkRat_eq_divInt]
  push_cast
  rw [← Rat.divInt_add_divInt a.val.num b.val.num
      (by exact_mod_cast a.val.den_nz) (by exact_mod_cast b.val.den_nz),
    Rat.num_divInt_den, Rat.num_divInt_den]

theorem val_mul (a b : JQ) : (a * b).val = a.val * b.val := by
  show (mkRat (a.val.num * b.val.num) (a.val.den * b.val.den) : ℚ) = _
  rw [Rat.mkRat_eq_divInt]
  push_cast
  rw [← Rat.divInt_mul_divInt', Rat.num_divInt_den, Rat.num_divInt_den]

theorem val_neg (a : JQ) : (-a).val = -a.val := by
  show (mkRat (-a.val.num) a.val.den : ℚ) = _
  rw [Rat.mkRat_eq_divInt, ← Rat.neg_divInt, Rat.num_divInt_den]

theorem val_sub (a b : JQ) : (a - b).val = a.val - b.val := by
  show (a + -b).val = _
  rw [val_add, val_neg, sub_eq_add_neg]

theorem val_inv (a : JQ) : (a⁻¹).val = (a.val)⁻¹ := by
  show (Rat.divInt a.val.den a.val.num : ℚ) = _
  rw [Rat.inv_def']

theorem val_div (a b : JQ) : (a / b).val = a.val / b.val := by
  show (a * b⁻¹).val = _
  rw [val_mul, val_inv, div_eq_mul_inv]

theorem val_nsmulRec (n : ℕ) (a : JQ) : (nsmulRec n a).val = n • a.val := by
  induction n with
  | zero => show (0 : JQ).val = _; rw [val_zero, zero_smul]
  | succ n ih =>
    show (nsmulRec n a + a).val = _
    rw [val_add, ih, succ_nsmul]

theorem val_nsmul (n : ℕ) (a : JQ) : (n • a).val = n • a.val := val_nsmulRec n a

theorem val_zsmul (n : ℤ) (a : JQ) : (n • a).val = n • a.val := by
  cases n with
  | ofNat n =>
    show (nsmulRec n a).val = _
    rw [val_nsmulRec]
    simp
  | negSucc n =>
    show (-(nsmulRec (n+1) a)).val = _
    rw [val_neg, val_nsmulRec, negSucc_zsmul]

theorem val_npowRec (a : JQ) (n : ℕ) : (npowRec n a).val = a.val ^ n := by
  induction n with
  | zero => show (1 : JQ).val = _; rw [val_one, pow_zero]
  | succ n ih =>
    show (npowRec n a * a).val = _
    rw [val_mul, ih, pow_succ]

theorem val_npow (a : JQ) (n : ℕ) : (a ^ n).val = a.val ^ n := val_npowRec a n

theorem val_zpow (a : JQ) (n : ℤ) : (a ^ n).val = a.val ^ n := by
  cases n with
  | ofNat n =>
    show (npowRec n a).val = _
    rw [val_npowRec, Int.ofNat_eq_coe, zpow_natCast]
  | negSucc n =>
    show ((npowRec (n+1) a)⁻¹).val = _
    rw [val_inv, val_npowRec, zpow_negSucc]

theorem val_nnqsmul (q : ℚ≥0) (a : JQ) : (q • a).val = q • a.val := by
  show ((⟨(q : ℚ)⟩ : JQ) * a).val = _
  rw [val_mul, NNRat.smul_def]

theorem val_qsmul (q : ℚ) (a : JQ) : (q • a).val = q • a.val := by
  show ((⟨q⟩ : JQ) * a).val = _
  rw [val_mul, Rat.smul_def, Rat.cast_id]

theorem val_nnratCast (q : ℚ≥0) : ((q : ℚ≥0) : JQ).val = q := rfl
theorem val_ratCast (q : ℚ) : ((q : ℚ) : JQ).val = q := rfl

theorem val_max (a b : JQ) : (max a b).val = max a.val b.val := by
  show (if a.val ≤ b.val then b else a).val = _
  split
  · exact (max_eq_right (by assumption)).symm
  · exact (max_eq_left (le_of_not_le (by assumption))).symm

theorem val_min (a b : JQ) : (min a b).val = min a.val b.val := by
  show (if a.val ≤ b.val then a else b).val = _
  split
  · exact (min_eq_left (by assumption)).symm
  · exact (min_eq_right (le_of_not_le (by assumption))).symm

instance : LinearOrderedField JQ :=
  val_injective.linearOrderedField val val_zero val_one val_add val_mul val_neg
    val_sub val_inv val_div val_nsmul val_zsmul val_nnqsmul val_qsmul val_npow
    val_zpow val_natCast val_intCast val_nnratCast val_ratCast val_max val_min

theorem val_le_iff {a b : JQ} : a ≤ b ↔ a.val ≤ b.val := Iff.rfl
theorem val_lt_iff {a b : JQ} : a < b ↔ a.val < b.val := Iff.rfl

/-- Order comparisons on `JQ` are definitionally comparisons of the wrapped
rationals; registering the resulting decidability directly keeps instance
search short and kernel-reducible. -/
instance (a b : JQ) : Decidable (a ≤ b) := inferInstanceAs (Decidable (a.val ≤ b.val))

instance (a b : JQ) : Decidable (a < b) := inferInstanceAs (Decidable (a.val < b.val))

end JQ

/-- One RGBA pixel, channels in `[0,255]` as produced by a canvas. -/
structure Pixel where
  r : ℕ
  g : ℕ
  b : ℕ
  a : ℕ
deriving DecidableEq

/-- An `ImageData` buffer: `data k` is the pixel at flat index `k = y·width + x`.
The canvas invariant is that only indices `k < width · height` are meaningful. -/
structure ImageBuffer where
  width : ℕ
  height : ℕ
  data : ℕ → Pixel

/-- A candidate text region as in the source's `TextRegion` interface. -/
structure TextRegion where
  x : JQ
  y : JQ
  width : JQ
  height : JQ
  confidence : JQ
deriving DecidableEq

/-- The `SmartOCROptions` flag set of the source. -/
structure SmartOCROptions where
  useTextDetection : Bool
  multipleRegions : Bool
  enhanceTextRegions : Bool
  useDeepLearning : Bool
  fallbackToOriginal : Bool

/-- The `PreprocessingOptions` flag set of the source (`App.tsx`). -/
structure PreprocessingOptions where
  enhanceContrast : Bool
  removeNoise : Bool
  binarize : Bool
  deskew : Bool
  scaleUp : Bool
  sharpen : Bool
  removeBackground : Bool
deriving DecidableEq

/-- JavaScript `Math.round`: round half toward positive infinity. -/
def jsRound (q : JQ) : ℤ := ⌊(q + 1/2).val⌋

/-- The unweighted mean gray value `(R+G+B)/3` used by the Sobel pass, the
stroke scanner and `binarizeForText` / `calculateAdaptiveThreshold`. -/
def grayMeanQ (p : Pixel) : JQ := ((p.r : JQ) + p.g + p.b) / 3

/-- `Math.round((r+g+b)/3)`, the gray level used by the adaptive-threshold
histogram in `calculateAdaptiveThreshold`. -/
def meanRound (p : Pixel) : ℕ := (jsRound (grayMeanQ p)).toNat

/-- `Math.round(0.299 R + 0.587 G + 0.114 B)`, the luma gray level used by the
histogram and threshold application of `binarize` in `App.tsx`. -/
def lumaRound (p : Pixel) : ℕ :=
  (jsRound ((299 / 1000 : JQ) * p.r + (587 / 1000 : JQ) * p.g
    + (114 / 1000 : JQ) * p.b)).toNat

/-- A stable insertion sort by descending count (second component), matching
JavaScript's stable `sort((a, b) => b.count - a.count)`: each element is
placed after every already-placed element whose count is at least as large. -/
def insertByCountDesc {α : Type} (x : α × ℕ) : List (α × ℕ) → List (α × ℕ)
  | [] => [x]
  | y :: ys => if y.2 < x.2 then x :: y :: ys else y :: insertByCountDesc x ys

/-- Sort a tally list by count, descending and stable. -/
def stableSortDesc {α : Type} (l : List (α × ℕ)) : List (α × ℕ) :=
  l.foldl (fun acc x => insertByCountDesc x acc) []

/-! ### Stroke scanner (`calculateStrokeScore`, `detectTextByStroke`) -/

/-- Block starting offsets of the source's tiling loops
`for (v = 0; v < dim - blockSize; v += blockSize)`. -/
def blockStarts (dim bs : ℕ) : List ℕ :=
  (List.range dim).filter fun v => v % bs == 0 && v + bs < dim

/-- All `(x, y)` block origins visited by a scanner with block size `bs`
(outer loop over `y`, inner loop over `x`, as in the source). -/
def blockPairs (img : ImageBuffer) (bs : ℕ) : List (ℕ × ℕ) :=
  (blockStarts img.height bs).flatMap fun y =>
    (blockStarts img.width bs).map fun x => (x, y)

/-- The flat pixel indices read by a `size × size` block at `(x, y)`, with the
source's `idx < data.length` guard. -/
def blockIndices (img : ImageBuffer) (x y size : ℕ) : List ℕ :=
  (List.range size).flatMap fun dy =>
    (List.range size).filterMap fun dx =>
      let k := (y + dy) * img.width + (x + dx)
      if k < img.width * img.height then some k else none

/-- `calculateStrokeScore`: the fraction of pixels in the block whose mean gray
is below 128 (the dark ratio), returned as the score when it lies strictly
between 0.1 and 0.4, and 0 otherwise. -/
def calculateStrokeScore (img : ImageBuffer) (x y size : ℕ) : JQ :=
  let ks := blockIndices img x y size
  let total : JQ := ks.length
  let dark : JQ := (ks.filter fun k => decide (grayMeanQ (img.data k) < 128)).length
  let darkFrac := dark / total
  if 1/10 < darkFrac ∧ darkFrac < 2/5 then darkFrac else 0

/-- The raw per-block candidates pushed by `detectTextByStroke`: 25×25 blocks
whose stroke score exceeds 0.4. -/
def rawStrokeCandidates (img : ImageBuffer) : List TextRegion :=
  (blockPairs img 25).filterMap fun p =>
    let s := calculateStrokeScore img p.1 p.2 25
    if 2/5 < s then some ⟨p.1, p.2, 25, 25, s⟩ else none

/-- `detectTextByStroke` returns its raw candidates without merging. -/
def detectTextByStroke (img : ImageBuffer) : List TextRegion :=
  rawStrokeCandidates img

/-! ### Region merger (`mergeNearbyRegions`) -/

/-- Squared Euclidean distance between the top-left corners of two regions.
The source compares `Math.sqrt(dx²+dy²) < 50`; we compare the square with
2500, which is equivalent. -/
def cornerDistSq (a b : TextRegion) : JQ := (a.x - b.x) ^ 2 + (a.y - b.y) ^ 2

/-- Bounding-box union of two regions with the maximum confidence, exactly as
in the absorption step of `mergeNearbyRegions`. -/
def unionRegion (cur r : TextRegion) : TextRegion :=
  let minX := min cur.x r.x
  let minY := min cur.y r.y
  let maxX := max (cur.x + cur.width) (r.x + r.width)
  let maxY := max (cur.y + cur.height) (r.y + r.height)
  ⟨minX, minY, maxX - minX, maxY - minY, max cur.confidence r.confidence⟩

/-- The inner `j` loop of `mergeNearbyRegions`: scan the remaining regions once
in order, absorbing each one whose top-left corner is within distance 50 of the
current (continually updated) region; return the final region and the
unabsorbed remainder in order. -/
def absorbPass (cur : TextRegion) : List TextRegion → TextRegion × List TextRegion
  | [] => (cur, [])
  | r :: rest =>
    if cornerDistSq cur r < 2500 then
      absorbPass (unionRegion cur r) rest
    else
      let res := absorbPass cur rest
      (res.1, r :: res.2)

/-- The outer `i` loop of `mergeNearbyRegions`, written with explicit fuel so
that it is structurally recursive: each first unvisited region anchors a
cluster built by `absorbPass`.  Fuel equal to the list length always suffices
because every step consumes at least the head (`absorbPass_length_le` below). -/
def mergeCoreFuel : ℕ → List TextRegion → List TextRegion
  | 0, _ => []
  | _, [] => []
  | fuel + 1, r :: rest =>
    let res := absorbPass r rest
    res.1 :: mergeCoreFuel fuel res.2

/-- The outer `i` loop of `mergeNearbyRegions`. -/
def mergeCore (l : List TextRegion) : List TextRegion :=
  mergeCoreFuel l.length l

/-- `mergeNearbyRegions`: greedy clustering followed by the size filter
`width > 20 && height > 10`. -/
def mergeNearbyRegions (l : List TextRegion) : List TextRegion :=
  (mergeCore l).filter fun r => decide (20 < r.width) && decide (10 < r.height)

/-- `mergeOverlappingRegions` simply delegates to `mergeNearbyRegions`. -/
def mergeOverlappingRegions (l : List TextRegion) : List TextRegion :=
  mergeNearbyRegions l

/-! ### Edge scanner (`sobelEdgeDetection`, `calculateEdgeScore`, `detectTextByEdges`) -/

/-- Mean gray of the pixel at coordinates `(x, y)` (used inside the Sobel
pass, which reads `(data[idx]+data[idx+1]+data[idx+2])/3`). -/
def grayAt (img : ImageBuffer) (x y : ℕ) : JQ :=
  grayMeanQ (img.data (y * img.width + x))

/-- `⌊√n⌋` for `n < 65536`, computed by an 8-step binary search (used only
below the clamp value 255², see `clampedMagnitude`). -/
def isqrtClamped (n : ℕ) : ℕ :=
  [128, 64, 32, 16, 8, 4, 2, 1].foldl
    (fun lo bit => if (lo + bit) * (lo + bit) ≤ n then lo + bit else lo) 0

/-- Round `Math.sqrt q` to the nearest integer, ties to even, as performed by
storing the magnitude into a `Uint8ClampedArray` (only invoked for `q < 255²`). -/
def roundHalfEvenSqrt (q : JQ) : ℕ :=
  let n := isqrtClamped q.val.floor.toNat
  if q < ((n : JQ) + 1/2) ^ 2 then n
  else if ((n : JQ) + 1/2) ^ 2 < q then n + 1
  else if n % 2 = 0 then n else n + 1

/-- The stored Sobel magnitude `Math.min(255, Math.sqrt(gx²+gy²))` after
clamped-array rounding.  When `gx²+gy² ≥ 255²` the clamp yields exactly 255;
otherwise the square root is rounded half-to-even. -/
def clampedMagnitude (gx gy : JQ) : ℕ :=
  let s : JQ := gx ^ 2 + gy ^ 2
  if (65025 : JQ) ≤ s then 255 else roundHalfEvenSqrt s

/-- The horizontal Sobel response at interior pixel `(x, y)`
(kernel `[-1 0 1; -2 0 2; -1 0 1]`). -/
def sobelGx (img : ImageBuffer) (x y : ℕ) : JQ :=
  -grayAt img (x-1) (y-1) + grayAt img (x+1) (y-1)
    - 2 * grayAt img (x-1) y + 2 * grayAt img (x+1) y
    - grayAt img (x-1) (y+1) + grayAt img (x+1) (y+1)

/-- The vertical Sobel response at interior pixel `(x, y)`
(kernel `[-1 -2 -1; 0 0 0; 1 2 1]`). -/
def sobelGy (img : ImageBuffer) (x y : ℕ) : JQ :=
  -grayAt img (x-1) (y-1) - 2 * grayAt img x (y-1) - grayAt img (x+1) (y-1)
    + grayAt img (x-1) (y+1) + 2 * grayAt img x (y+1) + grayAt img (x+1) (y+1)

/-- The `edges` buffer produced by `sobelEdgeDetection`, addressed by pixel
coordinates: interior pixels hold the clamped gradient magnitude, border
pixels stay 0 (the array is zero-initialised and the loops run over
`1 ≤ x ≤ width-2`, `1 ≤ y ≤ height-2`). -/
def sobelEdgeAt (img : ImageBuffer) (x y : ℕ) : ℕ :=
  if 1 ≤ x ∧ x + 1 < img.width ∧ 1 ≤ y ∧ y + 1 < img.height then
    clampedMagnitude (sobelGx img x y) (sobelGy img x y)
  else 0

/-- The `edges` buffer read back by flat index, as `calculateEdgeScore` does
(`edges[((y+dy)*width + (x+dx)) * 4]`). -/
def sobelEdgeFlat (img : ImageBuffer) (k : ℕ) : ℕ :=
  sobelEdgeAt img (k % img.width) (k / img.width)

/-- `calculateEdgeScore`: the mean stored edge magnitude over the block,
normalised by 255 (0 when the block contains no in-bounds pixel).  The
accumulated `edgeSum` is a sum of stored bytes and hence a natural number,
exactly as in the source. -/
def calculateEdgeScore (img : ImageBuffer) (x y size : ℕ) : JQ :=
  let ks := blockIndices img x y size
  let pixelCount : ℕ := ks.length
  let edgeSum : ℕ := (ks.map fun k => sobelEdgeFlat img k).sum
  if 0 < pixelCount then (edgeSum : JQ) / pixelCount / 255 else 0

/-- The raw per-block candidates pushed by `detectTextByEdges`: 20×20 blocks
whose edge score exceeds 0.3, with confidence equal to the score. -/
def rawEdgeCandidates (img : ImageBuffer) : List TextRegion :=
  (blockPairs img 20).filterMap fun p =>
    let s := calculateEdgeScore img p.1 p.2 20
    if 3/10 < s then some ⟨p.1, p.2, 20, 20, s⟩ else none

/-- `detectTextByEdges`: raw block candidates followed by `mergeNearbyRegions`. -/
def detectTextByEdges (img : ImageBuffer) : List TextRegion :=
  mergeNearbyRegions (rawEdgeCandidates img)

/-! ### Color scanner (`analyzeColorBlock`, `detectTextByColor`) -/

/-- The colors collected from a block by `analyzeColorBlock` (row-major order,
with the source's bounds guard). -/
def blockColors (img : ImageBuffer) (x y size : ℕ) : List Pixel :=
  (blockIndices img x y size).map img.data

/-- The squared color variance of a block.  The source computes the mean
joint squared deviation of R, G, B from the channel means (`avgR = sumR/n`
etc.), takes `Math.sqrt` and compares the result with 50; we keep the
pre-square-root `variance` and compare with 2500, which is equivalent since
both sides are nonnegative.  The variance is written in the algebraically
equal form `(n·Σ(r²+g²+b²) − sumR² − sumG² − sumB²) / n²` so that all
aggregation stays in `ℤ`; `colorVarianceSq_eq` below proves it equal to the
textbook mean-squared-deviation form the source computes. -/
def colorVarianceSq (colors : List Pixel) : JQ :=
  if colors.length = 0 then 0 else
    let n : ℕ := colors.length
    let sumR : ℕ := (colors.map fun c => c.r).sum
    let sumG : ℕ := (colors.map fun c => c.g).sum
    let sumB : ℕ := (colors.map fun c => c.b).sum
    let sumSq : ℕ := (colors.map fun c => c.r * c.r + c.g * c.g + c.b * c.b).sum
    (((n : ℤ) * sumSq - sumR ^ 2 - sumG ^ 2 - sumB ^ 2 : ℤ) : JQ) / ((n : JQ)) ^ 2

/-- Quantization of one channel in `findDominantColors`:
`Math.round(v / 32) * 32`, which on naturals is `⌊(2v + 32) / 64⌋ · 32`. -/
def quant32 (v : ℕ) : ℕ := ((2 * v + 32) / 64) * 32

/-- A quantized RGB triple (the map key `"r,g,b"` of the source). -/
def quantColor (p : Pixel) : ℕ × ℕ × ℕ := (quant32 p.r, quant32 p.g, quant32 p.b)

/-- Tally quantized colors, as the source's insertion-ordered `Map` does: the
distinct colors in first-encounter order, each with its number of occurrences. -/
def tallyColors (cs : List (ℕ × ℕ × ℕ)) : List ((ℕ × ℕ × ℕ) × ℕ) :=
  cs.eraseDups.map fun c => (c, cs.count c)

/-- `findDominantColors`: tally, stable-sort by count descending, and keep the
first `maxColors` entries. -/
def findDominantColors (colors : List Pixel) (maxColors : ℕ) :
    List ((ℕ × ℕ × ℕ) × ℕ) :=
  (stableSortDesc (tallyColors (colors.map quantColor))).take maxColors

/-- Squared Euclidean distance between two quantized colors. -/
def quantDistSq (a b : ℕ × ℕ × ℕ) : ℤ :=
  ((a.1 : ℤ) - b.1) ^ 2 + ((a.2.1 : ℤ) - b.2.1) ^ 2 + ((a.2.2 : ℤ) - b.2.2) ^ 2

/-- `hasHighContrast`: false with fewer than two dominant colors, otherwise the
two leading colors must be more than Euclidean distance 100 apart (modelled as
squared distance above 10000). -/
def hasHighContrast : List ((ℕ × ℕ × ℕ) × ℕ) → Bool
  | c1 :: c2 :: _ => decide (10000 < quantDistSq c1.1 c2.1)
  | _ => false

/-- `analyzeColorBlock`: returns `(isTextLike, confidence)` from the three
boolean signals weighted 0.4 / 0.3 / 0.3. -/
def analyzeColorBlock (img : ImageBuffer) (x y size : ℕ) : Bool × JQ :=
  let colors := blockColors img x y size
  let hasLowVariance := decide (colorVarianceSq colors < 2500)
  let dominant := findDominantColors colors 3
  let hasFewColors := decide (dominant.length ≤ 2)
  let highContrast := hasHighContrast dominant
  (hasLowVariance && hasFewColors && highContrast,
    (if hasLowVariance then 2/5 else 0) + (if hasFewColors then 3/10 else 0)
      + (if highContrast then 3/10 else 0))

/-- The raw per-block candidates pushed by `detectTextByColor`: 30×30 blocks
flagged text-like, with the block's confidence. -/
def rawColorCandidates (img : ImageBuffer) : List TextRegion :=
  (blockPairs img 30).filterMap fun p =>
    let res := analyzeColorBlock img p.1 p.2 30
    if res.1 then some ⟨p.1, p.2, 30, 30, res.2⟩ else none

/-- `detectTextByColor`: raw block candidates followed by `mergeNearbyRegions`. -/
def detectTextByColor (img : ImageBuffer) : List TextRegion :=
  mergeNearbyRegions (rawColorCandidates img)

/-! ### Pipeline orchestrator (`detectAndExtractText`) -/

/-- A produced output buffer, tagged by its provenance: one enhanced buffer per
detected region, or the globally enhanced image.  The pixel contents of the
produced files live outside the pure core (canvas encoding); the claims under
verification concern only the structure of the result. -/
inductive ImageTag where
  | regionOf (r : TextRegion)
  | globalEnhanced
deriving DecidableEq

/-- The merged region list computed by `detectAndExtractText` when text
detection is enabled: the three scanners' outputs are concatenated and then
passed once through `mergeOverlappingRegions`. -/
def detectedRegions (img : ImageBuffer) : List TextRegion :=
  mergeOverlappingRegions
    (detectTextByEdges img ++ detectTextByColor img ++ detectTextByStroke img)

/-- `detectAndExtractText`: the region list and the list of produced images
(region enhancements in detection order, then the global fallback), following
the source's three steps. -/
def detectAndExtractText (img : ImageBuffer) (options : SmartOCROptions) :
    List TextRegion × List ImageTag :=
  let textRegions := if options.useTextDetection then detectedRegions img else []
  let regionImages :=
    if 0 < textRegions.length ∧ options.enhanceTextRegions then
      textRegions.map ImageTag.regionOf
    else []
  let globalImages :=
    if options.fallbackToOriginal ∨ textRegions.length = 0 then
      [ImageTag.globalEnhanced]
    else []
  (textRegions, regionImages ++ globalImages)

/-! ### Threshold engine (`App.tsx` `binarize` / `calculateOtsuThreshold`,
`SmartTextDetector` `binarizeForText` / `calculateAdaptiveThreshold`) -/

/-- The histogram built inside `binarize` in `App.tsx`: one count per luma gray
level `Math.round(0.299R + 0.587G + 0.114B)`. -/
def appBinarizeHistogram (img : ImageBuffer) : ℕ → ℕ := fun g =>
  (List.range (img.width * img.height)).countP fun k => lumaRound (img.data k) == g

/-- The histogram built inside `calculateAdaptiveThreshold` in the
`SmartTextDetector`: one count per mean gray level `Math.round((R+G+B)/3)`. -/
def adaptiveHistogram (img : ImageBuffer) : ℕ → ℕ := fun g =>
  (List.range (img.width * img.height)).countP fun k => meanRound (img.data k) == g

/-- Loop state of `calculateOtsuThreshold`.  The accumulators `sumB` and `wB`
are sums of histogram counts and hence natural numbers, exactly as in the
source. -/
structure OtsuState where
  sumB : ℕ
  wB : ℕ
  varMax : JQ
  threshold : ℕ
  done : Bool

/-- `calculateOtsuThreshold` (identical in `App.tsx` and the detector): scan
the 256 histogram bins maximising the between-class variance; the first bin
achieving a strictly larger value than all previous ones wins.  The scan
accumulates `wB`, skips while `wB = 0` (`continue`) and stops once `wF = 0`
(`break`). -/
def calculateOtsuThreshold (hist : ℕ → ℕ) (totalPixels : ℕ) : ℕ :=
  let sum : ℕ := ((List.range 256).map fun i => i * hist i).sum
  let final := (List.range 256).foldl
    (fun (s : OtsuState) i =>
      if s.done then s else
        let wB := s.wB + hist i
        if wB = 0 then { s with wB } else
          let wF : ℤ := (totalPixels : ℤ) - wB
          if wF = 0 then { s with wB, done := true } else
            let sumB := s.sumB + i * hist i
            let mB : JQ := (sumB : JQ) / wB
            let mF : JQ := (((sum : ℤ) - sumB : ℤ) : JQ) / (wF : JQ)
            let varBetween := (wB : JQ) * (wF : JQ) * (mB - mF) ^ 2
            if s.varMax < varBetween then
              ⟨sumB, wB, varBetween, i, false⟩
            else { s with sumB, wB })
    ⟨0, 0, 0, 0, false⟩
  final.threshold

/-- Transform every pixel of a buffer (the source's in-place loops over the
flat RGBA array). -/
def mapData (f : Pixel → Pixel) (img : ImageBuffer) : ImageBuffer :=
  { img with data := fun k => f (img.data k) }

/-- The threshold application of `binarize` in `App.tsx`: recompute the
rounded luma per pixel, map it to black below-or-at the threshold and white
strictly above it (`gray > threshold ? 255 : 0`), alpha untouched. -/
def binarizePixelLuma (threshold : ℕ) (p : Pixel) : Pixel :=
  let gray := lumaRound p
  let binary := if threshold < gray then 255 else 0
  ⟨binary, binary, binary, p.a⟩

/-- `binarize` in `App.tsx`: build the luma histogram, take the Otsu
threshold, apply it per pixel. -/
def appBinarize (img : ImageBuffer) : ImageBuffer :=
  let threshold :=
    calculateOtsuThreshold (appBinarizeHistogram img) (img.width * img.height)
  mapData (binarizePixelLuma threshold) img

/-- The threshold application of `binarizeForText` in the detector: the
unrounded mean gray `(R+G+B)/3` is compared with the threshold
(`gray > threshold ? 255 : 0`), alpha untouched. -/
def binarizePixelMean (threshold : ℕ) (p : Pixel) : Pixel :=
  let gray := grayMeanQ p
  let binary := if (threshold : JQ) < gray then 255 else 0
  ⟨binary, binary, binary, p.a⟩

/-- `findHistogramPeaks`: interior bins that are strict local maxima with a
count above 100, stably sorted by count descending, first two kept, mapped to
their gray values. -/
def findHistogramPeaks (hist : ℕ → ℕ) : List ℕ :=
  let peaks := ((List.range 256).filter fun i =>
    decide (1 ≤ i) && decide (i + 1 < 256) && decide (hist (i-1) < hist i)
      && decide (hist (i+1) < hist i) && decide (100 < hist i)).map
    fun i => (i, hist i)
  ((stableSortDesc peaks).take 2).map fun p => p.1

/-- `calculateAdaptiveThreshold`: midpoint of the two dominant histogram peaks
when at least two qualify, otherwise the Otsu threshold on the same (mean
gray) histogram. -/
def calculateAdaptiveThreshold (img : ImageBuffer) : ℕ :=
  let hist := adaptiveHistogram img
  match findHistogramPeaks hist with
  | p0 :: p1 :: _ => (jsRound (((p0 : JQ) + p1) / 2)).toNat
  | _ => calculateOtsuThreshold hist (img.width * img.height)

/-- `binarizeForText`: apply the adaptive threshold to every pixel. -/
def binarizeForText (img : ImageBuffer) : ImageBuffer :=
  mapData (binarizePixelMean (calculateAdaptiveThreshold img)) img

/-! ### `analyzeImage` (`App.tsx`) -/

/-- Pixel brightness `(r+g+b)/3` as used throughout `analyzeImage`. -/
def brightnessAt (img : ImageBuffer) (k : ℕ) : JQ := grayMeanQ (img.data k)

/-- The interior condition of `analyzeImage`'s statistics loop: the source
tests `i > width*4 && i < data.length - width*4` on the byte offset `i = 4k`,
i.e. `width < k` and `k + width < width·height`. -/
def analyzeInterior (img : ImageBuffer) (k : ℕ) : Prop :=
  img.width < k ∧ k + img.width < img.width * img.height

instance (img : ImageBuffer) (k : ℕ) : Decidable (analyzeInterior img k) :=
  inferInstanceAs (Decidable (_ ∧ _))

/-- The local vertical-difference statistic of `analyzeImage`:
`|brightness − prevBrightness| + |brightness − nextBrightness|` with the
vertical neighbours one row above and below. -/
def verticalDiff (img : ImageBuffer) (k : ℕ) : JQ :=
  |brightnessAt img k - brightnessAt img (k - img.width)|
    + |brightnessAt img k - brightnessAt img (k + img.width)|

/-- The single statistics pass of `analyzeImage`, folding
`(totalBrightness, contrastSum, edgePixels)` over all pixel indices. -/
def analyzeFold (img : ImageBuffer) : JQ × JQ × ℕ :=
  (List.range (img.width * img.height)).foldl
    (fun s k =>
      let s1 := s.1 + brightnessAt img k
      if analyzeInterior img k then
        let diff := verticalDiff img k
        (s1, s.2.1 + diff, s.2.2 + if 30 < diff then 1 else 0)
      else (s1, s.2))
    (0, 0, 0)

/-- `analyzeImage`: derive the preprocessing flags from the average
brightness, average local contrast and edge-pixel fraction. -/
def analyzeImage (img : ImageBuffer) : PreprocessingOptions :=
  let stats := analyzeFold img
  let pixelCount : JQ := img.width * img.height
  let avgBrightness := stats.1 / pixelCount
  let avgContrast := stats.2.1 / pixelCount
  let edgeFrac := (stats.2.2 : JQ) / pixelCount
  { enhanceContrast := decide (avgContrast < 50)
    removeNoise := decide (1/10 < edgeFrac)
    binarize := true
    deskew := false
    scaleUp := decide (img.width < 800 ∨ img.height < 600)
    sharpen := decide (avgContrast < 30)
    removeBackground := decide (200 < avgBrightness ∨ avgBrightness < 50) }

/-! ### Spec-side definitions (written from the specification's words, for the
refinement and histogram claims) -/

/-- Modelled from the spec (§4.4–§4.5): the candidate list handed to the
region merger is the concatenation, in order, of the three scanners' raw
per-block candidates, and the detection result is the merger applied once to
that list — with no per-scanner merging beforehand. -/
def specSingleMergeDetect (img : ImageBuffer) : List TextRegion :=
  mergeNearbyRegions
    (rawEdgeCandidates img ++ rawColorCandidates img ++ rawStrokeCandidates img)

/-- Modelled from the spec (§4.3): histogram built from the luma gray
`round(0.299R + 0.587G + 0.114B)` of each pixel. -/
def specLumaHistogram (img : ImageBuffer) : ℕ → ℕ := fun g =>
  ((List.range (img.width * img.height)).map fun k => lumaRound (img.data k)).count g

/-- Histogram built from the mean gray `round((R+G+B)/3)` of each pixel (the
formula the detector's threshold paths actually use). -/
def specMeanHistogram (img : ImageBuffer) : ℕ → ℕ := fun g =>
  ((List.range (img.width * img.height)).map fun k => meanRound (img.data k)).count g

/-- Average brightness of `analyzeImage`, written as a plain sum over all
pixels divided by the pixel count. -/
def specAvgBrightness (img : ImageBuffer) : JQ :=
  ((List.range (img.width * img.height)).map fun k => brightnessAt img k).sum
    / ((img.width * img.height : ℕ) : JQ)

/-- Average local contrast of `analyzeImage`: the vertical-difference
statistic summed over the interior pixels, divided by the total pixel count. -/
def specAvgContrast (img : ImageBuffer) : JQ :=
  ((List.range (img.width * img.height)).map fun k =>
    if analyzeInterior img k then verticalDiff img k else 0).sum
    / ((img.width * img.height : ℕ) : JQ)

/-- Edge-pixel fraction of `analyzeImage`: the fraction of pixels (among all
pixels) whose vertical-difference statistic exceeds 30. -/
def specEdgeFrac (img : ImageBuffer) : JQ :=
  (((List.range (img.width * img.height)).countP fun k =>
    decide (analyzeInterior img k) && decide (30 < verticalDiff img k) : ℕ) : JQ)
    / ((img.width * img.height : ℕ) : JQ)

/-- The synthetic two-peak histogram of the spec: 1000 pixels at gray 20 and
1000 at gray 220. -/
def twoPeakHistogram : ℕ → ℕ := fun g => if g = 20 ∨ g = 220 then 1000 else 0

/-- The between-class variance `wB · wF · (mB − mF)²` scanned by
`calculateOtsuThreshold` at candidate threshold `i`, written directly from the
cumulative histogram sums (0 when either class is empty, matching the
`continue` / `break` guards of the scan). -/
def varBetween (hist : ℕ → ℕ) (total : ℕ) (i : ℕ) : JQ :=
  let wB : ℕ := ((List.range (i + 1)).map hist).sum
  let wF : ℤ := (total : ℤ) - wB
  if wB = 0 ∨ wF = 0 then 0 else
    let sumB : ℕ := ((List.range (i + 1)).map fun j => j * hist j).sum
    let sum : ℕ := ((List.range 256).map fun j => j * hist j).sum
    let mB : JQ := (sumB : JQ) / wB
    let mF : JQ := (((sum : ℤ) - sumB : ℤ) : JQ) / (wF : JQ)
    (wB : JQ) * (wF : JQ) * (mB - mF) ^ 2

/-! ### Concrete witness images -/

/-- An all-black pixel. -/
def blackPx : Pixel := ⟨0, 0, 0, 255⟩

/-- An all-white pixel. -/
def whitePx : Pixel := ⟨255, 255, 255, 255⟩

/-- A 26×26 image whose top-left 25×25 stroke block contains exactly 125 dark
pixels among 625 (dark ratio 0.2): the columns `x < 5` of the rows `y < 25`
are black, the rest white. -/
def strokeBugImg : ImageBuffer :=
  ⟨26, 26, fun k => if k % 26 < 5 ∧ k / 26 < 25 then blackPx else whitePx⟩

/-- A single red pixel, distinguishing the luma histogram (bin 76) from the
mean histogram (bin 85). -/
def onePxRed : ImageBuffer := ⟨1, 1, fun _ => ⟨255, 0, 0, 255⟩⟩

/-- A 1×1 white image (used to instantiate pipeline-level statements). -/
def onePxWhite : ImageBuffer := ⟨1, 1, fun _ => whitePx⟩

/-- The 31×41 image separating the source's detection pipeline from the
single-merge reading of the spec: white background, one black pixel at
`(10,10)` (making the 30×30 color block at `(0,0)` text-like), and horizontal
black/white stripe pairs on rows 30–40 (making the 20×20 edge block at
`(0,20)` score high while the block at `(0,0)` and the color block stay below
their thresholds). -/
def pipelineImg : ImageBuffer :=
  ⟨31, 41, fun k =>
    let x := k % 31
    let y := k / 31
    if 30 ≤ y then (if (y - 30) % 4 < 2 then blackPx else whitePx)
    else if x = 10 ∧ y = 10 then blackPx
    else whitePx⟩

/-- A 22×21 image fully covered by vertical stripe pairs (columns `x` with
`x % 4 < 2` black), whose single 20×20 edge block scores `361/400`. -/
def stripeImg : ImageBuffer :=
  ⟨22, 21, fun k => if k % 22 % 4 < 2 then blackPx else whitePx⟩

/-! ## Theorems

General lemmas first, then one theorem per claim (with its witness or
counterexample where required). -/

theorem absorbPass_length_le (cur : TextRegion) (l : List TextRegion) :
    (absorbPass cur l).2.length ≤ l.length := by
  induction l generalizing cur with
  | nil => simp [absorbPass]
  | cons r rest ih =>
    simp only [absorbPass]
    split
    · exact Nat.le_succ_of_le (ih _)
    · simpa using ih cur


/-- Splitting a summed pointwise addition (used to decompose the joint
variance into its three channel parts). -/
theorem sum_map_add {α : Type} {M : Type} [AddCommMonoid M] (l : List α) (f g : α → M) :
    (l.map fun a => f a + g a).sum = (l.map f).sum + (l.map g).sum := by
  induction l with
  | nil => simp
  | cons a t ih => simp [List.map_cons, List.sum_cons, ih, add_add_add_comm]

/-- Closed form of a sum of squared deviations from a constant. -/
theorem sq_dev_sum (l : List ℕ) (a : JQ) :
    (l.map fun (r : ℕ) => ((r : JQ) - a) ^ 2).sum =
      (((l.map fun (r : ℕ) => r * r).sum : ℕ) : JQ) - 2 * a * ((l.sum : ℕ) : JQ)
        + (l.length : JQ) * a ^ 2 := by
  induction l with
  | nil => simp
  | cons r t ih =>
    simp only [List.map_cons, List.sum_cons, List.length_cons, ih,
      Nat.cast_add, Nat.cast_mul, Nat.cast_succ]
    ring

/-- Sanity check for the integral formulation of `colorVarianceSq`: it equals
the textbook mean joint squared deviation of the three channels from their
means, exactly the quantity whose square root the source compares with 50. -/
theorem colorVarianceSq_eq (colors : List Pixel) (h : ¬ colors.length = 0) :
    colorVarianceSq colors =
      ((colors.map fun (c : Pixel) =>
        ((c.r : JQ) - (colors.map fun (d : Pixel) => (d.r : JQ)).sum / (colors.length : JQ)) ^ 2
          + ((c.g : JQ) - (colors.map fun (d : Pixel) => (d.g : JQ)).sum / (colors.length : JQ)) ^ 2
          + ((c.b : JQ) - (colors.map fun (d : Pixel) => (d.b : JQ)).sum / (colors.length : JQ)) ^ 2).sum)
        / (colors.length : JQ) := by
  have hn : ((colors.length : ℕ) : JQ) ≠ 0 := by exact_mod_cast h
  unfold colorVarianceSq
  rw [if_neg h]
  dsimp only
  rw [sum_map_add, sum_map_add, sum_map_add, sum_map_add]
  have hr : (colors.map fun (c : Pixel) =>
      ((c.r : JQ) - (colors.map fun (d : Pixel) => (d.r : JQ)).sum / (colors.length : JQ)) ^ 2) =
      (colors.map fun (c : Pixel) => c.r).map
        (fun (r : ℕ) => ((r : JQ) - (colors.map fun (d : Pixel) => (d.r : JQ)).sum / (colors.length : JQ)) ^ 2) := by
    rw [List.map_map]; rfl
  have hg : (colors.map fun (c : Pixel) =>
      ((c.g : JQ) - (colors.map fun (d : Pixel) => (d.g : JQ)).sum / (colors.length : JQ)) ^ 2) =
      (colors.map fun (c : Pixel) => c.g).map
        (fun (r : ℕ) => ((r : JQ) - (colors.map fun (d : Pixel) => (d.g : JQ)).sum / (colors.length : JQ)) ^ 2) := by
    rw [List.map_map]; rfl
  have hb : (colors.map fun (c : Pixel) =>
      ((c.b : JQ) - (colors.map fun (d : Pixel) => (d.b : JQ)).sum / (colors.length : JQ)) ^ 2) =
      (colors.map fun (c : Pixel) => c.b).map
        (fun (r : ℕ) => ((r : JQ) - (colors.map fun (d : Pixel) => (d.b : JQ)).sum / (colors.length : JQ)) ^ 2) := by
    rw [List.map_map]; rfl
  rw [hr, hg, hb, sq_dev_sum, sq_dev_sum, sq_dev_sum]
  have castR : (colors.map fun (d : Pixel) => (d.r : JQ)).sum
      = (((colors.map fun (c : Pixel) => c.r).sum : ℕ) : JQ) := by
    rw [Nat.cast_list_sum, List.map_map]; rfl
  have castG : (colors.map fun (d : Pixel) => (d.g : JQ)).sum
      = (((colors.map fun (c : Pixel) => c.g).sum : ℕ) : JQ) := by
    rw [Nat.cast_list_sum, List.map_map]; rfl
  have castB : (colors.map fun (d : Pixel) => (d.b : JQ)).sum
      = (((colors.map fun (c : Pixel) => c.b).sum : ℕ) : JQ) := by
    rw [Nat.cast_list_sum, List.map_map]; rfl
  have hsqr : (colors.map fun (c : Pixel) => c.r * c.r).sum
      = ((colors.map fun (c : Pixel) => c.r).map fun (r : ℕ) => r * r).sum := by
    rw [List.map_map]; rfl
  have hsqg : (colors.map fun (c : Pixel) => c.g * c.g).sum
      = ((colors.map fun (c : Pixel) => c.g).map fun (r : ℕ) => r * r).sum := by
    rw [List.map_map]; rfl
  have hsqb : (colors.map fun (c : Pixel) => c.b * c.b).sum
      = ((colors.map fun (c : Pixel) => c.b).map fun (r : ℕ) => r * r).sum := by
    rw [List.map_map]; rfl
  rw [castR, castG, castB, hsqr, hsqg, hsqb]
  simp only [List.length_map, Nat.cast_add, Nat.cast_mul, Int.cast_sub,
    Int.cast_mul, Int.cast_pow, Int.cast_natCast]
  field_simp
  simp only [Function.comp_def, Int.cast_natCast]
  ring

/-- The stroke score is 0 or a dark ratio strictly below 0.4; it never exceeds
the 0.4 gate of `detectTextByStroke`. -/
theorem calculateStrokeScore_not_gt (img : ImageBuffer) (x y size : ℕ) :
    ¬ (2/5 : JQ) < calculateStrokeScore img x y size := by
  unfold calculateStrokeScore
  dsimp only
  split
  · next h => exact fun hc => absurd hc (not_lt.mpr (le_of_lt h.2))
  · norm_num

/-- The stroke scanner is dead code: whatever the image, its gate
`strokeScore > 0.4` can never fire because the score is either 0 or a value
strictly below 0.4. -/
theorem detectTextByStroke_empty (img : ImageBuffer) : detectTextByStroke img = [] := by
  unfold detectTextByStroke rawStrokeCandidates
  refine List.filterMap_eq_nil_iff.mpr fun p _ => ?_
  simp only [if_neg (calculateStrokeScore_not_gt img p.1 p.2 25)]

set_option maxRecDepth 8000 in
/-- Claim C1: the spec says a 25×25 block is emitted as a stroke-scanner
candidate exactly when its dark ratio lies strictly in (0.10, 0.40), with the
ratio as confidence.  The code can never emit any candidate: the score
returned by `calculateStrokeScore` is 0 or lies strictly below 0.4, and
`detectTextByStroke` demands a score strictly above 0.4; `strokeBugImg` is a
concrete image whose top-left block has dark ratio 0.2, which the spec says
is a candidate and the code drops. -/
theorem c1_stroke_scanner_dead :
    (∀ img : ImageBuffer, detectTextByStroke img = []) ∧
      calculateStrokeScore strokeBugImg 0 0 25 = 1/5 := by
  refine ⟨detectTextByStroke_empty, ?_⟩
  decide

set_option maxRecDepth 20000 in
/-- Claim C2, counterexample: on the synthetic two-peak histogram the Otsu
computation returns 20 — the lower peak itself — so the returned value is not
strictly between 20 and 220. -/
theorem c2_otsu_twoPeak_counterexample :
    ¬(20 < calculateOtsuThreshold twoPeakHistogram 2000 ∧
      calculateOtsuThreshold twoPeakHistogram 2000 < 220) := by decide

set_option maxRecDepth 20000 in
set_option maxHeartbeats 1600000 in
/-- Claim C2, amended: on the two-peak histogram the Otsu computation returns
exactly 20, so `20 ≤ t < 220` holds but not `20 < t`; and 20 is the first gray
level achieving the maximum of `wB·wF·(mB−mF)²` (every bin's between-class
variance is at most that of bin 20, and any bin attaining it lies at 20 or
above). -/
theorem c2_otsu_twoPeak_amended :
    calculateOtsuThreshold twoPeakHistogram 2000 = 20 ∧
      ∀ i : Fin 256,
        varBetween twoPeakHistogram 2000 i ≤ varBetween twoPeakHistogram 2000 20 ∧
          (20 ≤ (i : ℕ) ∨
            varBetween twoPeakHistogram 2000 i ≠ varBetween twoPeakHistogram 2000 20) := by
  decide

set_option maxRecDepth 100000 in
set_option maxHeartbeats 3200000 in
/-- On `pipelineImg` the edge scanner's raw tiling finds exactly one 20×20
candidate, at `(0,20)` with score `209/400`. -/
theorem pipelineImg_rawEdge :
    rawEdgeCandidates pipelineImg = [⟨0, 20, 20, 20, 209/400⟩] := by decide

set_option maxRecDepth 100000 in
set_option maxHeartbeats 1600000 in
/-- On `pipelineImg` the color scanner's raw tiling finds exactly one 30×30
candidate, at `(0,0)` with confidence 1. -/
theorem pipelineImg_rawColor :
    rawColorCandidates pipelineImg = [⟨0, 0, 30, 30, 1⟩] := by decide

/-- Claim C3, counterexample: on `pipelineImg`, merging the concatenation of
the scanners' raw candidates once (the spec's reading) produces the box
`(0,0,30,40)`, while the source pipeline — which merges the edge and color
scanners' outputs individually first — produces `(0,0,30,30)`. -/
theorem c3_single_merge_counterexample :
    specSingleMergeDetect pipelineImg ≠ detectedRegions pipelineImg := by
  have hs : rawStrokeCandidates pipelineImg = [] := detectTextByStroke_empty pipelineImg
  rw [specSingleMergeDetect, detectedRegions, mergeOverlappingRegions,
    detectTextByEdges, detectTextByColor, detectTextByStroke,
    pipelineImg_rawEdge, pipelineImg_rawColor, hs]
  decide

/-- Claim C3, amended: the candidate list handed to the final merge step is
the concatenation of the edge scanner's *merged* output, the color scanner's
*merged* output and the stroke scanner's raw output, and the detection result
is the merger applied once more to that list. -/
theorem c3_per_scanner_merge :
    ∀ img : ImageBuffer,
      detectedRegions img =
        mergeNearbyRegions
          (mergeNearbyRegions (rawEdgeCandidates img) ++
            mergeNearbyRegions (rawColorCandidates img) ++ rawStrokeCandidates img) :=
  fun _ => rfl

/-- When the current region is at squared distance ≥ 2500 from every remaining
region, the absorption pass absorbs nothing. -/
theorem absorbPass_of_sep (cur : TextRegion) (l : List TextRegion)
    (h : ∀ r ∈ l, 2500 ≤ cornerDistSq cur r) : absorbPass cur l = (cur, l) := by
  induction l with
  | nil => rfl
  | cons r rest ih =>
    rw [absorbPass, if_neg (not_lt.mpr (h r (List.mem_cons_self r rest))),
      ih fun r hr => h r (List.mem_cons_of_mem _ hr)]

/-- With enough fuel, the greedy clustering of a pairwise ≥ 50px-separated
region list returns the list unchanged. -/
theorem mergeCoreFuel_of_sep (l : List TextRegion) (fuel : ℕ) (hf : l.length ≤ fuel)
    (h : l.Pairwise fun a b => 2500 ≤ cornerDistSq a b) : mergeCoreFuel fuel l = l := by
  induction l generalizing fuel with
  | nil => cases fuel <;> rfl
  | cons r rest ih =>
    cases fuel with
    | zero => exact absurd hf (by simp)
    | succ f =>
      rw [List.pairwise_cons] at h
      rw [mergeCoreFuel, absorbPass_of_sep r rest h.1]
      exact congrArg (r :: ·) (ih f (Nat.le_of_succ_le_succ hf) h.2)

/-- Claim C4, counterexample: the greedy merger is not idempotent.  On the
three 30×30 regions at `x = 100, 45, 60` (confidence ½ each), the first pass
lets the anchor at 100 skip the region at 45 and then absorb the one at 60;
the merged box's corner moves to 60, within 50px of the leftover region at
45, so a second pass merges further and changes the output. -/
theorem c4_merge_not_idempotent :
    mergeNearbyRegions (mergeNearbyRegions
        [⟨100, 0, 30, 30, 1/2⟩, ⟨45, 0, 30, 30, 1/2⟩, ⟨60, 0, 30, 30, 1/2⟩]) ≠
      mergeNearbyRegions
        [⟨100, 0, 30, 30, 1/2⟩, ⟨45, 0, 30, 30, 1/2⟩, ⟨60, 0, 30, 30, 1/2⟩] := by
  decide

/-- Claim C4, amended: the merger is idempotent on region lists whose top-left
corners are pairwise at least 50px apart and whose regions all pass the size
filter — it returns such a list unchanged, so re-merging a merged output
yields the same output whenever that output is so separated.  In general a
merged output need not be separated and re-merging it can differ
(`c4_merge_not_idempotent`). -/
theorem c4_merge_idempotent_of_sep (l : List TextRegion)
    (hsep : l.Pairwise fun a b => 2500 ≤ cornerDistSq a b)
    (hsize : ∀ r ∈ l, 20 < r.width ∧ 10 < r.height) :
    mergeNearbyRegions l = l := by
  unfold mergeNearbyRegions mergeCore
  rw [mergeCoreFuel_of_sep l l.length le_rfl hsep]
  refine List.filter_eq_self.mpr fun r hr => ?_
  have h := hsize r hr
  simp [h.1, h.2]

/-- Witness for `c4_merge_idempotent_of_sep` at a concrete separated list. -/
theorem c4_merge_idempotent_witness :
    mergeNearbyRegions [⟨0, 0, 30, 30, 1⟩, ⟨100, 0, 30, 30, 1/2⟩] =
      [⟨0, 0, 30, 30, 1⟩, ⟨100, 0, 30, 30, 1/2⟩] :=
  c4_merge_idempotent_of_sep _ (by decide) (by decide)

/-- Claim C5, counterexample: on a single pure-red pixel the histogram built
by the detector's `calculateAdaptiveThreshold` differs from the spec's luma
histogram — the pixel lands in bin `round((255+0+0)/3) = 85`, not in the luma
bin `round(0.299·255) = 76`. -/
theorem c5_histogram_counterexample :
    adaptiveHistogram onePxRed 76 ≠ specLumaHistogram onePxRed 76 := by decide

/-- Claim C5, amended: the histogram of `binarize` in `App.tsx` uses the luma
gray `round(0.299R + 0.587G + 0.114B)`, while the histogram used by both
threshold paths of the detector's `calculateAdaptiveThreshold` (bimodal peaks
and Otsu fallback) uses the unweighted mean gray `round((R+G+B)/3)`. -/
theorem c5_histogram_formulas :
    (∀ (img : ImageBuffer) (g : ℕ), appBinarizeHistogram img g = specLumaHistogram img g) ∧
      ∀ (img : ImageBuffer) (g : ℕ), adaptiveHistogram img g = specMeanHistogram img g := by
  constructor <;>
    · intro img g
      simp only [appBinarizeHistogram, adaptiveHistogram, specLumaHistogram,
        specMeanHistogram, List.count, List.countP_map]
      rfl

/-- Claim C6: with `useTextDetection = false` the pipeline returns an empty
region list and exactly one produced image — the global enhancement —
whatever the image and the other option flags. -/
theorem c6_global_fallback (img : ImageBuffer) (opts : SmartOCROptions)
    (h : opts.useTextDetection = false) :
    (detectAndExtractText img opts).1 = [] ∧
      (detectAndExtractText img opts).2.length = 1 ∧
      (detectAndExtractText img opts).2 = [ImageTag.globalEnhanced] := by
  simp [detectAndExtractText, h]

/-- Witness for `c6_global_fallback`: a 1×1 white image with every other flag
set. -/
theorem c6_global_fallback_witness :
    (detectAndExtractText onePxWhite ⟨false, true, true, true, true⟩).1 = [] ∧
      (detectAndExtractText onePxWhite ⟨false, true, true, true, true⟩).2.length = 1 ∧
      (detectAndExtractText onePxWhite ⟨false, true, true, true, true⟩).2 =
        [ImageTag.globalEnhanced] :=
  c6_global_fallback onePxWhite ⟨false, true, true, true, true⟩ rfl

/-- The statistics fold of `analyzeImage` computes, from any starting state,
the sum of brightnesses, the sum of interior vertical differences, and the
count of interior pixels with difference above 30. -/
theorem analyzeFold_go (img : ImageBuffer) (l : List ℕ) (s : JQ × JQ × ℕ) :
    l.foldl
      (fun s k =>
        let s1 := s.1 + brightnessAt img k
        if analyzeInterior img k then
          let diff := verticalDiff img k
          (s1, s.2.1 + diff, s.2.2 + if 30 < diff then 1 else 0)
        else (s1, s.2)) s =
      (s.1 + (l.map fun k => brightnessAt img k).sum,
       s.2.1 + (l.map fun k => if analyzeInterior img k then verticalDiff img k else 0).sum,
       s.2.2 + l.countP fun k =>
         decide (analyzeInterior img k) && decide (30 < verticalDiff img k)) := by
  induction l generalizing s with
  | nil => simp
  | cons a t ih =>
    rw [List.foldl_cons, ih]
    by_cases h : analyzeInterior img a
    · have hd : decide (analyzeInterior img a) = true := decide_eq_true h
      simp only [h, if_true, List.map_cons, List.sum_cons, List.countP_cons,
        hd, Bool.true_and]
      refine Prod.ext (by dsimp only; ring) (Prod.ext (by dsimp only; ring) ?_)
      dsimp only
      by_cases h30 : 30 < verticalDiff img a
      · simp [h30]; omega
      · simp [h30]
    · have hd : decide (analyzeInterior img a) = false := decide_eq_false h
      simp only [h, if_false, List.map_cons, List.sum_cons, List.countP_cons,
        hd, Bool.false_and]
      refine Prod.ext (by dsimp only; ring) (Prod.ext (by dsimp only; ring) ?_)
      simp

/-- The statistics of `analyzeImage` in closed summation form. -/
theorem analyzeFold_spec (img : ImageBuffer) :
    analyzeFold img =
      (((List.range (img.width * img.height)).map fun k => brightnessAt img k).sum,
       ((List.range (img.width * img.height)).map fun k =>
         if analyzeInterior img k then verticalDiff img k else 0).sum,
       (List.range (img.width * img.height)).countP fun k =>
         decide (analyzeInterior img k) && decide (30 < verticalDiff img k)) := by
  unfold analyzeFold
  rw [analyzeFold_go]
  simp

/-- Claim C7: `analyzeImage` returns exactly the option flags derived from
the average brightness, the average local (vertical-difference) contrast and
the edge-pixel fraction: contrast enhancement iff average contrast < 50,
denoise iff edge fraction > 0.1, binarize always, deskew never, upscale iff
the image is smaller than 800×600, sharpen iff average contrast < 30, and
background removal iff the average brightness is above 200 or below 50. -/
theorem c7_analyzeImage_flags (img : ImageBuffer) :
    analyzeImage img =
      { enhanceContrast := decide (specAvgContrast img < 50)
        removeNoise := decide (1/10 < specEdgeFrac img)
        binarize := true
        deskew := false
        scaleUp := decide (img.width < 800 ∨ img.height < 600)
        sharpen := decide (specAvgContrast img < 30)
        removeBackground :=
          decide (200 < specAvgBrightness img ∨ specAvgBrightness img < 50) } := by
  unfold analyzeImage specAvgContrast specAvgBrightness specEdgeFrac
  rw [analyzeFold_spec]
  push_cast
  rfl

/-- Claim C8: for every buffer and every threshold, both binarization
routines set each pixel's R, G and B channels to all-0 or all-255 — gray
below the threshold yields black, gray above it yields white — and leave the
alpha channel unchanged.  (`App.tsx`'s `binarize` compares the rounded luma;
the detector's `binarizeForText` compares the raw mean gray.) -/
theorem c8_binarize_black_or_white (t : ℕ) (img : ImageBuffer) (k : ℕ) :
    (((mapData (binarizePixelLuma t) img).data k = ⟨0, 0, 0, (img.data k).a⟩ ∨
        (mapData (binarizePixelLuma t) img).data k = ⟨255, 255, 255, (img.data k).a⟩) ∧
      (lumaRound (img.data k) < t →
        (mapData (binarizePixelLuma t) img).data k = ⟨0, 0, 0, (img.data k).a⟩) ∧
      (t < lumaRound (img.data k) →
        (mapData (binarizePixelLuma t) img).data k = ⟨255, 255, 255, (img.data k).a⟩) ∧
      ((mapData (binarizePixelLuma t) img).data k).a = (img.data k).a) ∧
    (((mapData (binarizePixelMean t) img).data k = ⟨0, 0, 0, (img.data k).a⟩ ∨
        (mapData (binarizePixelMean t) img).data k = ⟨255, 255, 255, (img.data k).a⟩) ∧
      (grayMeanQ (img.data k) < (t : JQ) →
        (mapData (binarizePixelMean t) img).data k = ⟨0, 0, 0, (img.data k).a⟩) ∧
      ((t : JQ) < grayMeanQ (img.data k) →
        (mapData (binarizePixelMean t) img).data k = ⟨255, 255, 255, (img.data k).a⟩) ∧
      ((mapData (binarizePixelMean t) img).data k).a = (img.data k).a) := by
  constructor
  · by_cases h : t < lumaRound (img.data k)
    · simp only [mapData, binarizePixelLuma, if_pos h]
      exact ⟨Or.inr trivial, fun hc => absurd h (not_lt.mpr (le_of_lt hc)),
        fun _ => trivial, trivial⟩
    · simp only [mapData, binarizePixelLuma, if_neg h]
      exact ⟨Or.inl trivial, fun _ => trivial, fun hc => absurd hc h, trivial⟩
  · by_cases h : (t : JQ) < grayMeanQ (img.data k)
    · simp only [mapData, binarizePixelMean, if_pos h]
      exact ⟨Or.inr trivial, fun hc => absurd h (not_lt.mpr (le_of_lt hc)),
        fun _ => trivial, trivial⟩
    · simp only [mapData, binarizePixelMean, if_neg h]
      exact ⟨Or.inl trivial, fun _ => trivial, fun hc => absurd hc h, trivial⟩

/-- Witness for `c8_binarize_black_or_white`: a white pixel at threshold 100
becomes white in both routines (and the alpha stays 255). -/
theorem c8_binarize_witness :
    (mapData (binarizePixelLuma 100) onePxWhite).data 0 = ⟨255, 255, 255, 255⟩ ∧
      (mapData (binarizePixelMean 100) onePxWhite).data 0 = ⟨255, 255, 255, 255⟩ := by
  have h := c8_binarize_black_or_white 100 onePxWhite 0
  exact ⟨h.1.2.2.1 (by decide), h.2.2.2.1 (by decide)⟩

/-- Claim C9: in both binarization routines the comparison with the threshold
is strict (`gray > threshold`), so a pixel whose gray value equals the
threshold exactly is mapped to black. -/
theorem c9_equal_gray_is_black (t : ℕ) (p : Pixel) :
    (lumaRound p = t → binarizePixelLuma t p = ⟨0, 0, 0, p.a⟩) ∧
      (grayMeanQ p = (t : JQ) → binarizePixelMean t p = ⟨0, 0, 0, p.a⟩) := by
  constructor
  · intro h
    simp [binarizePixelLuma, h]
  · intro h
    simp [binarizePixelMean, h]

/-- Witness for `c9_equal_gray_is_black`: the gray pixel `(100,100,100)` at
threshold 100 (both gray formulas give exactly 100) becomes black, alpha 7
preserved. -/
theorem c9_equal_gray_witness :
    binarizePixelLuma 100 ⟨100, 100, 100, 7⟩ = ⟨0, 0, 0, 7⟩ ∧
      binarizePixelMean 100 ⟨100, 100, 100, 7⟩ = ⟨0, 0, 0, 7⟩ :=
  ⟨(c9_equal_gray_is_black 100 ⟨100, 100, 100, 7⟩).1 (by decide),
    (c9_equal_gray_is_black 100 ⟨100, 100, 100, 7⟩).2 (by decide)⟩

/-- Every region surviving `mergeNearbyRegions` passes the size filter. -/
theorem mem_mergeNearbyRegions_size (l : List TextRegion) (r : TextRegion)
    (h : r ∈ mergeNearbyRegions l) : 20 < r.width ∧ 10 < r.height := by
  unfold mergeNearbyRegions at h
  have hb := (List.mem_filter.mp h).2
  rw [Bool.and_eq_true, decide_eq_true_eq, decide_eq_true_eq] at hb
  exact hb

/-- Every raw edge-scanner candidate is exactly a 20×20 block. -/
theorem rawEdgeCandidates_dims (img : ImageBuffer) (c : TextRegion)
    (h : c ∈ rawEdgeCandidates img) : c.width = 20 ∧ c.height = 20 := by
  unfold rawEdgeCandidates at h
  obtain ⟨p, -, hp⟩ := List.mem_filterMap.mp h
  dsimp only at hp
  split at hp
  · cases hp
    exact ⟨rfl, rfl⟩
  · cases hp

set_option maxRecDepth 100000 in
set_option maxHeartbeats 1600000 in
/-- On `stripeImg` the edge scanner's raw tiling finds exactly one candidate:
the block at `(0,0)` with score `361/400`. -/
theorem stripeImg_rawEdge :
    rawEdgeCandidates stripeImg = [⟨0, 0, 20, 20, 361/400⟩] := by decide

/-- Claim C10: every region produced by the merge-and-filter step has width
strictly above 20 and height strictly above 10; every raw edge-scanner
candidate is exactly 20×20; hence a raw edge candidate can never itself
appear in the edge scanner's output. -/
theorem c10_edge_filter :
    (∀ (l : List TextRegion) (r : TextRegion),
        r ∈ mergeNearbyRegions l → 20 < r.width ∧ 10 < r.height) ∧
      (∀ (img : ImageBuffer) (c : TextRegion),
        c ∈ rawEdgeCandidates img → c.width = 20 ∧ c.height = 20) ∧
      ∀ (img : ImageBuffer) (c : TextRegion),
        c ∈ rawEdgeCandidates img → c ∉ detectTextByEdges img := by
  refine ⟨mem_mergeNearbyRegions_size, rawEdgeCandidates_dims, ?_⟩
  intro img c hc hmem
  have hw := (rawEdgeCandidates_dims img c hc).1
  have hgt := (mem_mergeNearbyRegions_size _ c hmem).1
  rw [hw] at hgt
  exact absurd hgt (lt_irrefl _)

/-- Witness for `c10_edge_filter`: the singleton region list `[(0,0,30,30)]`
survives the merger and indeed has width above 20 and height above 10, and
`stripeImg`'s unique raw edge candidate never reaches the scanner's output. -/
theorem c10_edge_filter_witness :
    (20 < (⟨0, 0, 30, 30, 1⟩ : TextRegion).width ∧
        10 < (⟨0, 0, 30, 30, 1⟩ : TextRegion).height) ∧
      ((⟨0, 0, 20, 20, 361/400⟩ : TextRegion).width = 20 ∧
        (⟨0, 0, 20, 20, 361/400⟩ : TextRegion).height = 20) ∧
      (⟨0, 0, 20, 20, 361/400⟩ : TextRegion) ∉ detectTextByEdges stripeImg := by
  have hmem : (⟨0, 0, 20, 20, 361/400⟩ : TextRegion) ∈ rawEdgeCandidates stripeImg := by
    rw [stripeImg_rawEdge]
    exact List.mem_singleton_self _
  refine ⟨c10_edge_filter.1 [⟨0, 0, 30, 30, 1⟩] ⟨0, 0, 30, 30, 1⟩ (by decide),
    c10_edge_filter.2.1 stripeImg _ hmem, c10_edge_filter.2.2 stripeImg _ hmem⟩
